import Mathlib

/-!
Shallow embedding of the transcript-tokenization core of the
`asr_preprocessing` repository (TIMIT pipeline):
`src/timit/transcript_character.py` and `src/timit/transcript_phone.py`.

Python dictionaries are modelled as functions `String → Option Nat`
(or `String → Option String`) built by insertion with later bindings
shadowing earlier ones; a `KeyError` is modelled by propagating `none`
through `Option`.  Python sets are modelled by the stream of added
elements, with `sorted(list(set))` rendered as an insertion sort of the
deduplicated stream.  Python `IndexError` on `s[0]` / `s[-1]` of an
empty string is modelled by an explicit `none` result.  Python string
primitives (`strip`, `lower`, `split`) are modelled by structurally
recursive functions on `List Char` so that every definition evaluates
by kernel reduction.
-/

/-- Model of Python `str.strip()`: drop whitespace from both ends. -/
def stripWS (s : String) : String :=
  String.mk (((s.data.dropWhile Char.isWhitespace).reverse.dropWhile
    Char.isWhitespace).reverse)

/-- Model of Python `str.split(sep)` for a one-character separator:
split on every occurrence, keeping empty pieces; the empty string
yields the singleton list containing the empty word. -/
def splitChars (sep : Char) : List Char → List (List Char)
  | [] => [[]]
  | c :: rest =>
    match splitChars sep rest with
    | [] => [[]]
    | w :: ws => if c = sep then [] :: w :: ws else (c :: w) :: ws

/-- Model of Python `sep.join` for a single-space separator, on words
given as character lists. -/
def joinSpace : List (List Char) → List Char
  | [] => []
  | [w] => w
  | w :: ws => w ++ ' ' :: joinSpace ws

/-- Insertion into a Python-style dict modelled as a lookup function:
the new binding shadows any earlier binding for the same key. -/
def dictInsert (d : String → Option Nat) (k : String) (v : Nat) : String → Option Nat :=
  fun s => if s = k then some v else d s

/-- The list of vocabulary symbols the `Char2idx.__init__` /
`Phone2idx.__init__` loop retains: each line stripped, lines on the
remove list skipped (`transcript_character.py` lines 39-45). -/
def retainedSymbols : List String → List String → List String
  | [], _ => []
  | l :: ls, removeList =>
    let ch := stripWS l
    if ch ∈ removeList then retainedSymbols ls removeList
    else ch :: retainedSymbols ls removeList

/-- The vocabulary-reading loop of `Char2idx.__init__` (and, verbatim,
`Phone2idx.__init__`): fold over the file lines, stripping each, skipping
entries of the remove list, assigning consecutive indices starting at 0.
Returns the dict together with the running counter `vocab_count`. -/
def char2idxCore (vocabLines removeList : List String) : (String → Option Nat) × Nat :=
  vocabLines.foldl
    (fun acc line =>
      let ch := stripWS line
      if ch ∈ removeList then acc
      else (dictInsert acc.1 ch acc.2, acc.2 + 1))
    (fun _ => none, 0)

/-- `Char2idx.__init__`: the reading loop followed by the two sentinel
assignments `map_dict[<] = vocab_count` and `map_dict[>] = vocab_count + 1`
(`transcript_character.py` lines 29-49). -/
def char2idxInit (vocabLines removeList : List String) : String → Option Nat :=
  let core := char2idxCore vocabLines removeList
  dictInsert (dictInsert core.1 "<" core.2) ">" (core.2 + 1)

/-- `Phone2idx.__init__` (`transcript_phone.py` lines 23-37) is character
for character the same construction as `Char2idx.__init__`. -/
def phone2idxInit : List String → List String → String → Option Nat :=
  char2idxInit

/-- Looking up each symbol of a list in the dict, failing (Python
`KeyError`) as soon as one symbol is absent; models
`list(map(lambda x: self.map_dict[x], ...))`. -/
def lookupList (d : String → Option Nat) : List String → Option (List Nat)
  | [] => some []
  | s :: rest =>
    match d s with
    | none => none
    | some n => (lookupList d rest).map (fun ns => n :: ns)

/-- Plain mode of `Char2idx.__call__` (`transcript_character.py` line 101):
one unit per character of the input string. -/
def callPlain (d : String → Option Nat) (s : String) : Option (List Nat) :=
  lookupList d (s.data.map String.singleton)

/-- The capital-divide body scan of `Char2idx.__call__`
(`transcript_character.py` lines 66-81), phrased on the word suffix
starting at the current loop position `i`.  The Python loop runs while
`i ≤ len(word) - 2`; a suffix of length 1 therefore means the loop is
over with `skip_flag` false and the final character is emitted, and an
empty suffix is reached exactly when a double-letter pair consumed the
last two characters, in which case `skip_flag` is true and the final
character is not emitted again.  The two-character membership test is
against the keys of `map_dict`, the single-character fallback lookup
raises `KeyError` (= `none`) when absent. -/
def capScanAux (d : String → Option Nat) (c1 : Char) : List Char → Option (List Nat)
  | [] => (d (String.singleton c1)).map (fun n => [n])
  | c2 :: rest =>
    match d (String.mk [c1, c2]) with
    | some n =>
      match rest with
      | [] => some [n]
      | c3 :: rest2 => (capScanAux d c3 rest2).map (fun ns => n :: ns)
    | none =>
      match d (String.singleton c1) with
      | none => none
      | some n => (capScanAux d c2 rest).map (fun ns => n :: ns)

/-- The body scan entry point: an empty suffix contributes nothing (it
is reached exactly when a double-letter pair consumed the last two
characters, so the final character is not emitted again). -/
def capScanBody (d : String → Option Nat) : List Char → Option (List Nat)
  | [] => some []
  | c :: rest => capScanAux d c rest

/-- One word of the capital-divide branch of `Char2idx.__call__`
(`transcript_character.py` lines 62-81): emit
`map_dict[word[0].upper()]`, then run the body scan over positions
`1 .. len(word)-2`, then emit `map_dict[word[-1]]` when `skip_flag` is
false.  For a word of length 1 the loop is empty and `word[-1]` is the
(not uppercased) first character itself, so TWO lookups are made.  An
empty word fails (`word[0]` raises `IndexError`). -/
def capWord (d : String → Option Nat) : List Char → Option (List Nat)
  | [] => none
  | [c] =>
    match d (String.singleton c.toUpper) with
    | none => none
    | some n => (d (String.singleton c)).map (fun m => [n, m])
  | c :: rest =>
    match d (String.singleton c.toUpper) with
    | none => none
    | some n => (capScanBody d rest).map (fun ns => n :: ns)

/-- Sequencing `capWord` over the words of the input, concatenating the
emitted indices, propagating failure. -/
def capWords (d : String → Option Nat) : List (List Char) → Option (List Nat)
  | [] => some []
  | w :: ws =>
    match capWord d w with
    | none => none
    | some ns => (capWords d ws).map (fun ms => ns ++ ms)

/-- Capital-divide mode of `Char2idx.__call__`
(`transcript_character.py` lines 61-81): split the input on the space
mark and scan each word.  `read_char` always uses the default space
mark, the single character `_`. -/
def callCapital (d : String → Option Nat) (spaceMark : Char) (s : String) :
    Option (List Nat) :=
  capWords d (splitChars spaceMark s.data)

/-- `Phone2idx.__call__` (`transcript_phone.py` lines 39-50): split the
input on single spaces and look every token up. -/
def phone2idxCall (d : String → Option Nat) (s : String) : Option (List Nat) :=
  lookupList d ((splitChars ' ' s.data).map String.mk)

/-- The three values of the `label_type` argument of `map_phone2phone`. -/
inductive LabelType
  | phone61
  | phone48
  | phone39
deriving DecidableEq

/-- The dict-building loop of `map_phone2phone`
(`transcript_phone.py` lines 102-112).  A table row is the
whitespace-split field triple `(phone61, phone48, phone39)` of one line
of the mapping file.  Note the deletion test is on the SECOND field
(the 48-phone column) for both target granularities: when it is the
token `nan` the symbol is mapped to the empty string, otherwise the
field of the requested granularity is assigned. -/
def phoneMapDict (labelType : LabelType) (table : List (String × String × String)) :
    String → Option String :=
  table.foldl
    (fun d row =>
      if row.2.1 ≠ "nan" then
        match labelType with
        | LabelType.phone48 => fun s => if s = row.1 then some row.2.1 else d s
        | LabelType.phone39 => fun s => if s = row.1 then some row.2.2 else d s
        | LabelType.phone61 => d
      else
        fun s => if s = row.1 then some "" else d s)
    (fun _ => none)

/-- `map_phone2phone` (`transcript_phone.py` lines 89-126): identity for
`phone61`; otherwise map each phone through the dict, passing symbols
absent from the dict through unchanged, then remove every empty string
(the `while in / remove` loop). -/
def map_phone2phone (phoneList : List String) (labelType : LabelType)
    (table : List (String × String × String)) : List String :=
  match labelType with
  | LabelType.phone61 => phoneList
  | _ =>
    let d := phoneMapDict labelType table
    let mapped := phoneList.map (fun p => (d p).getD p)
    mapped.filter (fun s => decide (s ≠ ""))

/-- Characterization helper (not from the source): the last table row
whose first field equals `p`, i.e. the binding for `p` that survives in
a Python dict filled row by row. -/
def lastRowFor (table : List (String × String × String)) (p : String) :
    Option (String × String × String) :=
  match table with
  | [] => none
  | r :: rest =>
    match lastRowFor rest p with
    | some r2 => some r2
    | none => if r.1 = p then some r else none

/-- The stream of symbols added to `phone61_set` by the set-building
loop of `read_phone` (`transcript_phone.py` lines 148-157): the first
field of every row, in both branches. -/
def phone61Symbols (table : List (String × String × String)) : List String :=
  table.map (fun r => r.1)

/-- The stream of symbols added to `phone48_set` by `read_phone`: the
second field of every row whose second field is not `nan`. -/
def phone48Symbols (table : List (String × String × String)) : List String :=
  table.filterMap (fun r => if r.2.1 ≠ "nan" then some r.2.1 else none)

/-- The stream of symbols added to `phone39_set` by `read_phone`: the
third field of every row whose second field is not `nan`. -/
def phone39Symbols (table : List (String × String × String)) : List String :=
  table.filterMap (fun r => if r.2.1 ≠ "nan" then some r.2.2 else none)

/-- The characters removed by the regular expression
`[\":;!?,.-]+` of `read_char` (`transcript_character.py` line 185):
double quote, colon, semicolon, exclamation mark, question mark,
comma, period, hyphen. -/
def punctChars : List Char :=
  [Char.ofNat 34, ':', ';', '!', '?', ',', '.', '-']

/-- Model of `line.strip().lower()` (`transcript_character.py` line 185). -/
def stripLower (line : String) : List Char :=
  (stripWS line).data.map Char.toLower

/-- Model of `re.sub(r'[\":;!?,.-]+', '', line)`: removing every run of
punctuation characters is the same as filtering them out. -/
def removePunct (cs : List Char) : List Char :=
  cs.filter (fun c => decide (c ∉ punctChars))

/-- Model of `' '.join(line.split(' ')[2:])`
(`transcript_character.py` line 187): drop the first two
space-separated fields. -/
def dropFirstTwoFields (cs : List Char) : List Char :=
  joinSpace ((splitChars ' ' cs).drop 2)

/-- Model of the `while '  ' in transcript` loop
(`transcript_character.py` lines 190-191): its fixed point collapses
every run of spaces to a single space. -/
def rdsAux (c1 : Char) : List Char → List Char
  | [] => [c1]
  | c2 :: rest =>
    if c1 = ' ' ∧ c2 = ' ' then rdsAux c2 rest
    else c1 :: rdsAux c2 rest

/-- Entry point of the double-space collapse. -/
def removeDoubleSpaces : List Char → List Char
  | [] => []
  | c :: rest => rdsAux c rest

/-- Model of the leading/trailing space trim of `read_char`
(`transcript_character.py` lines 193-197).  `transcript[0]` on the
empty string raises `IndexError`, modelled as `none`; after a leading
space is dropped the `transcript[-1]` check can hit the empty string
as well. -/
def trimEdges (t : List Char) : Option (List Char) :=
  match t with
  | [] => none
  | c :: rest =>
    let t1 := if c = ' ' then rest else c :: rest
    match t1.getLast? with
    | none => none
    | some d => some (if d = ' ' then t1.dropLast else t1)

/-- The whole line-cleaning pipeline of `read_char`
(`transcript_character.py` lines 185-197) applied to the last line of a
transcript file: strip, lowercase, remove punctuation, drop the two
frame fields, collapse double spaces, trim the edges (failing on an
empty transcript). -/
def cleanTranscript (line : String) : Option String :=
  (trimEdges (removeDoubleSpaces (dropFirstTwoFields (removePunct (stripLower line))))).map
    String.mk

/-- The space-mark substitution `re.sub(r'\s', SPACE, transcript)`
(`transcript_character.py` line 226). -/
def spaceSub (s : String) : String :=
  String.mk (s.data.map (fun c => if c.isWhitespace then '_' else c))

/-- The apostrophe character, kept out of string literals. -/
def APOSTROPHE : Char := Char.ofNat 39

/-- The stream of characters added to `char_set` by `read_char`
(`transcript_character.py` lines 228-229): every character of every
space-substituted transcript, in corpus order. -/
def charSymbolsOf (ts : List String) : List Char :=
  (ts.map (fun t => (spaceSub t).data)).flatten

/-- The 26 double-letter units of `transcript_character.py`
(lines 153-155). -/
def DOUBLE_LETTERS : List String :=
  ["aa", "bb", "cc", "dd", "ee", "ff", "gg", "hh", "ii", "jj",
   "kk", "ll", "mm", "nn", "oo", "pp", "qq", "rr", "ss", "tt",
   "uu", "vv", "ww", "xx", "yy", "zz"]

/-- The capital-divide body scan of the VOCABULARY-BUILDING loop of
`read_char` (`transcript_character.py` lines 208-223), phrased like
`capScanAux` on the word suffix from the current loop position.  Unlike
`Char2idx.__call__`, the two-character test is against the fixed list
`DOUBLE_LETTERS` and no lookup can fail. -/
def capVocabScanAux (c1 : Char) : List Char → List String
  | [] => [String.singleton c1]
  | c2 :: rest =>
    if String.mk [c1, c2] ∈ DOUBLE_LETTERS then
      match rest with
      | [] => [String.mk [c1, c2]]
      | c3 :: rest2 => String.mk [c1, c2] :: capVocabScanAux c3 rest2
    else
      String.singleton c1 :: capVocabScanAux c2 rest

/-- The units added to `char_capital_set` for one word by `read_char`
(`transcript_character.py` lines 200-223).  Unlike `Char2idx.__call__`,
a word of length 1 contributes ONLY its uppercased letter; an empty
word would raise `IndexError` on `word[0]`. -/
def capVocabUnitsOfWord : List Char → Option (List String)
  | [] => none
  | [c] => some [String.singleton c.toUpper]
  | c :: c2 :: rest => some (String.singleton c.toUpper :: capVocabScanAux c2 rest)

/-- Sequencing `capVocabUnitsOfWord` over the words of one transcript
(split on literal spaces, before space substitution). -/
def capUnitsOfWords : List (List Char) → Option (List String)
  | [] => some []
  | w :: ws =>
    match capVocabUnitsOfWord w with
    | none => none
    | some us => (capUnitsOfWords ws).map (fun vs => us ++ vs)

/-- The units of one transcript: `for word in transcript.split(' ')`. -/
def capUnitsOfTranscript (t : String) : Option (List String) :=
  capUnitsOfWords (splitChars ' ' t.data)

/-- The stream of units added to `char_capital_set` over a corpus of
cleaned transcripts. -/
def capSymbolsOf : List String → Option (List String)
  | [] => some []
  | t :: ts =>
    match capUnitsOfTranscript t with
    | none => none
    | some us => (capSymbolsOf ts).map (fun vs => us ++ vs)

/-- Model of `sorted(list(set))`: sort the deduplicated stream of added
elements, lexicographically by character code (Python string order). -/
def sortedSet (l : List String) : List String :=
  (List.insertionSort (fun a b : List Char => a ≤ b) (l.map String.data).dedup).map
    String.mk

/-- The lines of the `character.txt` vocabulary file written by
`read_char` (`transcript_character.py` lines 243-256): the sorted
character set with space mark and apostrophe discarded, followed by the
fixed trailing entries space mark and apostrophe. -/
def charVocabLines (ts : List String) : List String :=
  sortedSet (((charSymbolsOf ts).filter
      (fun c => decide (c ≠ '_' ∧ c ≠ APOSTROPHE))).map String.singleton)
    ++ ["_", String.singleton APOSTROPHE]

/-- The lines of the `character_capital_divide.txt` vocabulary file
written by `read_char` (`transcript_character.py` lines 245, 258-262):
the sorted capital-divide unit set with the apostrophe discarded,
followed by the fixed trailing apostrophe. -/
def capVocabLines (ts : List String) : Option (List String) :=
  (capSymbolsOf ts).map (fun us =>
    sortedSet (us.filter (fun u => decide (u ≠ String.singleton APOSTROPHE)))
      ++ [String.singleton APOSTROPHE])

/-- The lines of a phone vocabulary file written by `read_phone`
(`transcript_phone.py` lines 167-176): the sorted set, nothing
appended. -/
def phoneVocabLines (symbols : List String) : List String :=
  sortedSet symbols

/-- The bytes of a vocabulary file: every line followed by a newline
(`f.write(s + backslash-n)`). -/
def vocabFileContent (lines : List String) : String :=
  String.join (lines.map (fun l => l ++ String.singleton (Char.ofNat 10)))


/-- Characterization helper: the dict-building fold of `map_phone2phone`
restated as a head recursion threading the dict built so far. -/
def pmdAux (lt : LabelType) (d : String → Option String) :
    List (String × String × String) → String → Option String
  | [] => d
  | row :: rest =>
    pmdAux lt
      (if row.2.1 ≠ "nan" then
        match lt with
        | LabelType.phone48 => fun s => if s = row.1 then some row.2.1 else d s
        | LabelType.phone39 => fun s => if s = row.1 then some row.2.2 else d s
        | LabelType.phone61 => d
      else
        fun s => if s = row.1 then some "" else d s)
      rest

/-- The value the dict-building loop of `map_phone2phone` would bind a
matching row to. -/
def rowVal (lt : LabelType) (r : String × String × String) : String :=
  if r.2.1 ≠ "nan" then
    match lt with
    | LabelType.phone48 => r.2.1
    | LabelType.phone39 => r.2.2
    | LabelType.phone61 => ""
  else ""

/-- Characterization helper: the vocabulary-reading fold restated as a
plain recursion over the retained symbols with a running index. -/
def buildFrom (d : String → Option Nat) (k : Nat) : List String → (String → Option Nat) × Nat
  | [] => (d, k)
  | s :: rest => buildFrom (dictInsert d s k) (k + 1) rest

/-- Antisymmetry of the lexicographic comparison used by `sortedSet`. -/
instance : IsAntisymm String (fun a b => a.data ≤ b.data) :=
  ⟨fun a b h1 h2 => by
    have h3 : a.data = b.data := le_antisymm h1 h2
    cases a
    cases b
    exact congrArg String.mk h3⟩

/-! ### Helper lemmas -/


theorem char2idxCore_eq (vocabLines removeList : List String) :
    char2idxCore vocabLines removeList =
      buildFrom (fun _ => none) 0 (retainedSymbols vocabLines removeList) := by
  suffices h : ∀ (ls : List String) (d : String → Option Nat) (k : Nat),
      ls.foldl
        (fun acc line =>
          let ch := stripWS line
          if ch ∈ removeList then acc
          else (dictInsert acc.1 ch acc.2, acc.2 + 1))
        (d, k) = buildFrom d k (retainedSymbols ls removeList) by
    exact h vocabLines _ 0
  intro ls
  induction ls with
  | nil => intro d k; rfl
  | cons l ls ih =>
    intro d k
    by_cases h : stripWS l ∈ removeList
    · simp [List.foldl, retainedSymbols, h, ih]
    · simp [List.foldl, retainedSymbols, h, ih, buildFrom]

theorem buildFrom_snd (l : List String) :
    ∀ (d : String → Option Nat) (k : Nat), (buildFrom d k l).2 = k + l.length := by
  induction l with
  | nil => intro d k; simp [buildFrom]
  | cons s rest ih => intro d k; simp [buildFrom, ih]; omega

theorem buildFrom_notmem (l : List String) :
    ∀ (d : String → Option Nat) (k : Nat) (s : String), s ∉ l →
      (buildFrom d k l).1 s = d s := by
  induction l with
  | nil => intro d k s _; rfl
  | cons s0 rest ih =>
    intro d k s hs
    have h1 : s ∉ rest := fun h => hs (List.mem_cons_of_mem _ h)
    have h2 : s ≠ s0 := fun h => hs (h ▸ List.mem_cons_self _ _)
    simp [buildFrom, ih _ _ _ h1, dictInsert, h2]

theorem buildFrom_get (l : List String) (hl : l.Nodup) :
    ∀ (d : String → Option Nat) (k : Nat) (i : Nat) (h : i < l.length),
      (buildFrom d k l).1 (l.get ⟨i, h⟩) = some (k + i) := by
  induction l with
  | nil => intro d k i h; simp at h
  | cons s0 rest ih =>
    intro d k i h
    have hnm : s0 ∉ rest := (List.nodup_cons.mp hl).1
    have hnd : rest.Nodup := (List.nodup_cons.mp hl).2
    cases i with
    | zero =>
      have : (buildFrom (dictInsert d s0 k) (k + 1) rest).1 s0 = dictInsert d s0 k s0 :=
        buildFrom_notmem rest _ _ _ hnm
      simp [buildFrom, List.get, this, dictInsert]
    | succ i =>
      have h' : i < rest.length := by simpa using h
      simpa [buildFrom, List.get, Nat.add_assoc, Nat.add_comm 1 i] using
        ih hnd (dictInsert d s0 k) (k + 1) i h'

/-- Per-symbol lookup: a retained symbol distinct from the sentinels is
mapped to some index below the retained count, and that index points
back at the symbol. -/
theorem char2idxInit_mem (vocabLines removeList : List String)
    (hnd : (retainedSymbols vocabLines removeList).Nodup)
    (hlt : "<" ∉ retainedSymbols vocabLines removeList)
    (hgt : ">" ∉ retainedSymbols vocabLines removeList)
    (s : String) (hs : s ∈ retainedSymbols vocabLines removeList) :
    ∃ i, char2idxInit vocabLines removeList s = some i ∧
      i < (retainedSymbols vocabLines removeList).length ∧
      (retainedSymbols vocabLines removeList).getD i "" = s := by
  obtain ⟨⟨i, hi⟩, hget⟩ := List.mem_iff_get.mp hs
  refine ⟨i, ?_, hi, ?_⟩
  · have hne1 : s ≠ ">" := fun h => hgt (h ▸ hs)
    have hne2 : s ≠ "<" := fun h => hlt (h ▸ hs)
    have := buildFrom_get _ hnd (fun _ => none) 0 i hi
    rw [hget] at this
    simp only [char2idxInit, dictInsert, if_neg hne1, if_neg hne2, char2idxCore_eq]
    simpa using this
  · rw [List.getD_eq_get? ,List.get?_eq_get hi, Option.getD_some, hget]

theorem mk_data_eq (s : String) : String.mk s.data = s := rfl

theorem mk_injective : Function.Injective String.mk := by
  intro a b h
  exact congrArg String.data h

theorem mem_sortedSet (l : List String) (s : String) : s ∈ sortedSet l ↔ s ∈ l := by
  unfold sortedSet
  constructor
  · intro h
    obtain ⟨w, hw, hws⟩ := List.mem_map.mp h
    have hw2 : w ∈ (l.map String.data).dedup :=
      ((List.perm_insertionSort _ _).mem_iff).mp hw
    obtain ⟨t, ht, hts⟩ := List.mem_map.mp (List.mem_dedup.mp hw2)
    rw [← hws, ← hts, mk_data_eq]
    exact ht
  · intro h
    refine List.mem_map.mpr ⟨s.data, ?_, mk_data_eq s⟩
    exact ((List.perm_insertionSort _ _).mem_iff).mpr
      (List.mem_dedup.mpr (List.mem_map.mpr ⟨s, h, rfl⟩))

theorem sortedSet_sorted (l : List String) :
    (sortedSet l).Sorted (fun a b => a.data ≤ b.data) := by
  unfold sortedSet
  rw [List.Sorted, List.pairwise_map]
  exact List.sorted_insertionSort (fun a b : List Char => a ≤ b) ((l.map String.data).dedup)

theorem sortedSet_nodup (l : List String) : (sortedSet l).Nodup := by
  unfold sortedSet
  refine List.Nodup.map mk_injective ?_
  exact ((List.perm_insertionSort _ _).nodup_iff).mpr (List.nodup_dedup _)

theorem sortedSet_eq_of_mem_iff (l1 l2 : List String)
    (h : ∀ s, s ∈ l1 ↔ s ∈ l2) : sortedSet l1 = sortedSet l2 := by
  have hperm : (sortedSet l1).Perm (sortedSet l2) := by
    refine (List.perm_ext_iff_of_nodup (sortedSet_nodup l1) (sortedSet_nodup l2)).mpr ?_
    intro s
    rw [mem_sortedSet, mem_sortedSet]
    exact h s
  exact List.eq_of_perm_of_sorted hperm (sortedSet_sorted l1) (sortedSet_sorted l2)


theorem lastRowFor_mem (table : List (String × String × String)) (p : String)
    (r : String × String × String) (h : lastRowFor table p = some r) :
    r ∈ table ∧ r.1 = p := by
  induction table with
  | nil => simp [lastRowFor] at h
  | cons r0 rest ih =>
    revert h
    simp only [lastRowFor]
    cases hrest : lastRowFor rest p with
    | some r2 =>
      intro h
      have h2 : some r2 = some r := h
      obtain ⟨h1, hp⟩ := ih (hrest.trans h2)
      exact ⟨List.mem_cons_of_mem _ h1, hp⟩
    | none =>
      intro h
      have h3 : (if r0.1 = p then some r0 else none) = some r := h
      by_cases h0 : r0.1 = p
      · rw [if_pos h0] at h3
        cases h3
        exact ⟨List.mem_cons_self _ _, h0⟩
      · rw [if_neg h0] at h3
        cases h3


theorem phoneMapDict_eq_aux (lt : LabelType) (table : List (String × String × String)) :
    phoneMapDict lt table = pmdAux lt (fun _ => none) table := by
  unfold phoneMapDict
  suffices h : ∀ (tb : List (String × String × String)) (d : String → Option String),
      tb.foldl
        (fun d row =>
          if row.2.1 ≠ "nan" then
            match lt with
            | LabelType.phone48 => fun s => if s = row.1 then some row.2.1 else d s
            | LabelType.phone39 => fun s => if s = row.1 then some row.2.2 else d s
            | LabelType.phone61 => d
          else
            fun s => if s = row.1 then some "" else d s)
        d = pmdAux lt d tb by
    exact h table _
  intro tb
  induction tb with
  | nil => intro d; rfl
  | cons row rest ih => intro d; rw [List.foldl_cons, ih]; rfl

set_option maxRecDepth 4000 in
theorem pmdAux_eval48 (p : String) :
    ∀ (tb : List (String × String × String)) (d : String → Option String),
      pmdAux LabelType.phone48 d tb p =
        match lastRowFor tb p with
        | some r => some (rowVal LabelType.phone48 r)
        | none => d p := by
  intro tb
  induction tb with
  | nil => intro d; rfl
  | cons row rest ih =>
    intro d
    rw [show pmdAux LabelType.phone48 d (row :: rest) = pmdAux LabelType.phone48
        (if row.2.1 ≠ "nan" then fun s => if s = row.1 then some row.2.1 else d s
         else fun s => if s = row.1 then some "" else d s) rest from rfl, ih]
    simp only [lastRowFor]
    cases hrest : lastRowFor rest p with
    | some r2 => simp
    | none =>
      by_cases hnan : row.2.1 = "nan"
      · rw [if_neg (not_not_intro hnan)]
        simp only []
        by_cases hp : p = row.1
        · rw [if_pos hp, if_pos hp.symm]
          simp [rowVal, hnan]
        · rw [if_neg hp, if_neg (fun h => hp h.symm)]
      · rw [if_pos hnan]
        simp only []
        by_cases hp : p = row.1
        · rw [if_pos hp, if_pos hp.symm]
          simp [rowVal, hnan]
        · rw [if_neg hp, if_neg (fun h => hp h.symm)]

set_option maxRecDepth 4000 in
theorem pmdAux_eval39 (p : String) :
    ∀ (tb : List (String × String × String)) (d : String → Option String),
      pmdAux LabelType.phone39 d tb p =
        match lastRowFor tb p with
        | some r => some (rowVal LabelType.phone39 r)
        | none => d p := by
  intro tb
  induction tb with
  | nil => intro d; rfl
  | cons row rest ih =>
    intro d
    rw [show pmdAux LabelType.phone39 d (row :: rest) = pmdAux LabelType.phone39
        (if row.2.1 ≠ "nan" then fun s => if s = row.1 then some row.2.2 else d s
         else fun s => if s = row.1 then some "" else d s) rest from rfl, ih]
    simp only [lastRowFor]
    cases hrest : lastRowFor rest p with
    | some r2 => simp
    | none =>
      by_cases hnan : row.2.1 = "nan"
      · rw [if_neg (not_not_intro hnan)]
        simp only []
        by_cases hp : p = row.1
        · rw [if_pos hp, if_pos hp.symm]
          simp [rowVal, hnan]
        · rw [if_neg hp, if_neg (fun h => hp h.symm)]
      · rw [if_pos hnan]
        simp only []
        by_cases hp : p = row.1
        · rw [if_pos hp, if_pos hp.symm]
          simp [rowVal, hnan]
        · rw [if_neg hp, if_neg (fun h => hp h.symm)]

theorem phoneMapDict_eq_lastRow (lt : LabelType) (hlt : lt ≠ LabelType.phone61)
    (table : List (String × String × String)) (p : String) :
    phoneMapDict lt table p = (lastRowFor table p).map (rowVal lt) := by
  cases lt with
  | phone61 => exact absurd rfl hlt
  | phone48 =>
    rw [phoneMapDict_eq_aux, pmdAux_eval48 p table]
    cases lastRowFor table p <;> rfl
  | phone39 =>
    rw [phoneMapDict_eq_aux, pmdAux_eval39 p table]
    cases lastRowFor table p <;> rfl

theorem filter_map_length (f : String → String) :
    ∀ (l : List String), (∀ p ∈ l, (f p = "" ↔ p = "q")) →
      ((l.map f).filter (fun s => decide (s ≠ ""))).length = l.length - l.count "q" := by
  intro l
  induction l with
  | nil => intro _; simp
  | cons p rest ih =>
    intro h
    have hp := h p (List.mem_cons_self _ _)
    have hrest : ∀ x ∈ rest, (f x = "" ↔ x = "q") :=
      fun x hx => h x (List.mem_cons_of_mem _ hx)
    have hcle : rest.count "q" ≤ rest.length := List.count_le_length _ _
    by_cases hpq : p = "q"
    · have hf : f p = "" := hp.mpr hpq
      simp only [List.map_cons, List.filter_cons, hf, List.count_cons, List.length_cons]
      rw [if_neg (by decide)]
      rw [ih hrest]
      have hbeq : (p == "q") = true := beq_iff_eq.mpr hpq
      have hone : (if (p == "q") = true then 1 else 0) = 1 := by rw [hbeq]; simp
      rw [hone]
      omega
    · have hf : ¬ f p = "" := fun h0 => hpq (hp.mp h0)
      simp only [List.map_cons, List.filter_cons, List.count_cons, List.length_cons]
      have hdec : (decide (f p ≠ "")) = true := decide_eq_true hf
      rw [if_pos hdec]
      rw [List.length_cons, ih hrest]
      have hbeq : (p == "q") = false := beq_eq_false_iff_ne.mpr hpq
      have hzero : (if (p == "q") = true then 1 else 0) = 0 := by rw [hbeq]; simp
      rw [hzero]
      omega

theorem not_mem_phone48Symbols (table : List (String × String × String))
    (h : ∀ r ∈ table, r.2.1 ≠ "q") : "q" ∉ phone48Symbols table := by
  intro hmem
  obtain ⟨r, hr, hfr⟩ := List.mem_filterMap.mp hmem
  revert hfr
  by_cases hnan : r.2.1 ≠ "nan"
  · rw [if_pos hnan]
    intro hfr
    exact h r hr (Option.some.inj hfr)
  · rw [if_neg hnan]
    intro hfr
    cases hfr

theorem not_mem_phone39Symbols (table : List (String × String × String))
    (h : ∀ r ∈ table, r.2.1 ≠ "nan" → r.2.2 ≠ "q") : "q" ∉ phone39Symbols table := by
  intro hmem
  obtain ⟨r, hr, hfr⟩ := List.mem_filterMap.mp hmem
  revert hfr
  by_cases hnan : r.2.1 ≠ "nan"
  · rw [if_pos hnan]
    intro hfr
    exact h r hr hnan (Option.some.inj hfr)
  · rw [if_neg hnan]
    intro hfr
    cases hfr

theorem charSymbolsOf_perm (ts1 ts2 : List String) (h : ts1.Perm ts2) :
    (charSymbolsOf ts1).Perm (charSymbolsOf ts2) :=
  List.Perm.flatten (h.map _)

theorem capSymbolsOf_cons (t : String) (ts : List String) :
    capSymbolsOf (t :: ts) =
      match capUnitsOfTranscript t with
      | none => none
      | some us => (capSymbolsOf ts).map (fun vs => us ++ vs) := rfl

theorem capSymbolsOf_perm (ts1 ts2 : List String) (h : ts1.Perm ts2) :
    (capSymbolsOf ts1 = none ↔ capSymbolsOf ts2 = none) ∧
    (∀ u1 u2, capSymbolsOf ts1 = some u1 → capSymbolsOf ts2 = some u2 →
      ∀ x, x ∈ u1 ↔ x ∈ u2) := by
  induction h with
  | nil =>
    refine ⟨Iff.rfl, ?_⟩
    intro u1 u2 h1 h2 x
    have e1 : u1 = [] := by simpa [capSymbolsOf] using h1.symm
    have e2 : u2 = [] := by simpa [capSymbolsOf] using h2.symm
    rw [e1, e2]
  | cons t hl ih =>
    rename_i l1 l2
    obtain ⟨ihn, ihs⟩ := ih
    rw [capSymbolsOf_cons, capSymbolsOf_cons]
    cases hct : capUnitsOfTranscript t with
    | none => simp
    | some us =>
      cases h1 : capSymbolsOf l1 with
      | none =>
        have h2 : capSymbolsOf l2 = none := ihn.mp h1
        rw [h2]
        simp
      | some v1 =>
        cases h2 : capSymbolsOf l2 with
        | none =>
          have h3 := ihn.mpr h2
          rw [h1] at h3
          cases h3
        | some v2 =>
          refine ⟨by simp, ?_⟩
          intro u1 u2 hu1 hu2 x
          have e1 : u1 = us ++ v1 := (Option.some.inj hu1).symm
          have e2 : u2 = us ++ v2 := (Option.some.inj hu2).symm
          rw [e1, e2]
          simp only [List.mem_append]
          have := ihs v1 v2 h1 h2 x
          tauto
  | swap a b l =>
    rw [capSymbolsOf_cons, capSymbolsOf_cons, capSymbolsOf_cons, capSymbolsOf_cons]
    cases hcb : capUnitsOfTranscript b with
    | none =>
      cases hca : capUnitsOfTranscript a with
      | none => simp
      | some ua => simp
    | some ub =>
      cases hca : capUnitsOfTranscript a with
      | none => simp
      | some ua =>
        cases hl : capSymbolsOf l with
        | none => simp
        | some v =>
          refine ⟨by simp, ?_⟩
          intro u1 u2 hu1 hu2 x
          have e1 : u1 = ub ++ (ua ++ v) := by simpa using hu1.symm
          have e2 : u2 = ua ++ (ub ++ v) := by simpa using hu2.symm
          rw [e1, e2]
          simp only [List.mem_append]
          tauto
  | trans h12 h23 ih1 ih2 =>
    obtain ⟨ihn1, ihs1⟩ := ih1
    obtain ⟨ihn2, ihs2⟩ := ih2
    refine ⟨ihn1.trans ihn2, ?_⟩
    intro u1 u3 h1 h3 x
    rename_i l1 l2 l3
    cases h2 : capSymbolsOf l2 with
    | none =>
      have h4 := ihn1.mpr h2
      rw [h1] at h4
      cases h4
    | some u2 =>
      exact (ihs1 u1 u2 h1 h2 x).trans (ihs2 u2 u3 h2 h3 x)

theorem charVocabLines_perm (ts1 ts2 : List String) (h : ts1.Perm ts2) :
    charVocabLines ts1 = charVocabLines ts2 := by
  unfold charVocabLines
  have hmem : ∀ s,
      s ∈ ((charSymbolsOf ts1).filter
        (fun c => decide (c ≠ '_' ∧ c ≠ APOSTROPHE))).map String.singleton ↔
      s ∈ ((charSymbolsOf ts2).filter
        (fun c => decide (c ≠ '_' ∧ c ≠ APOSTROPHE))).map String.singleton := by
    intro s
    constructor <;> intro hs <;> obtain ⟨c, hc, hcs⟩ := List.mem_map.mp hs <;>
      refine List.mem_map.mpr ⟨c, ?_, hcs⟩ <;>
      obtain ⟨hcm, hcp⟩ := List.mem_filter.mp hc
    · exact List.mem_filter.mpr ⟨(charSymbolsOf_perm ts1 ts2 h).mem_iff.mp hcm, hcp⟩
    · exact List.mem_filter.mpr ⟨(charSymbolsOf_perm ts1 ts2 h).mem_iff.mpr hcm, hcp⟩
  rw [sortedSet_eq_of_mem_iff _ _ hmem]

theorem map_phone2phone_ne61 (lt : LabelType) (hlt : lt ≠ LabelType.phone61)
    (phoneList : List String) (table : List (String × String × String)) :
    map_phone2phone phoneList lt table =
      (phoneList.map (fun p => (phoneMapDict lt table p).getD p)).filter
        (fun s => decide (s ≠ "")) := by
  cases lt with
  | phone61 => exact absurd rfl hlt
  | phone48 => rfl
  | phone39 => rfl

theorem sortedSet_perm_eq (l1 l2 : List String) (h : l1.Perm l2) :
    sortedSet l1 = sortedSet l2 :=
  sortedSet_eq_of_mem_iff _ _ (fun _ => h.mem_iff)

theorem capVocabLines_perm (ts1 ts2 : List String) (h : ts1.Perm ts2) :
    capVocabLines ts1 = capVocabLines ts2 := by
  obtain ⟨hn, hs⟩ := capSymbolsOf_perm ts1 ts2 h
  unfold capVocabLines
  cases h1 : capSymbolsOf ts1 with
  | none => rw [hn.mp h1]
  | some u1 =>
    cases h2 : capSymbolsOf ts2 with
    | none =>
      have h3 := hn.mpr h2
      rw [h1] at h3
      cases h3
    | some u2 =>
      have hmem := hs u1 u2 h1 h2
      simp only [Option.map_some']
      have heq : sortedSet (u1.filter (fun u => decide (u ≠ String.singleton APOSTROPHE)))
          = sortedSet (u2.filter (fun u => decide (u ≠ String.singleton APOSTROPHE))) := by
        apply sortedSet_eq_of_mem_iff
        intro s
        constructor <;> intro hsm <;> obtain ⟨h4, h5⟩ := List.mem_filter.mp hsm
        · exact List.mem_filter.mpr ⟨(hmem s).mp h4, h5⟩
        · exact List.mem_filter.mpr ⟨(hmem s).mpr h4, h5⟩
      rw [heq]

theorem charVocabLines_shape (ts : List String) :
    ∃ L : List String,
      charVocabLines ts = L ++ ["_", String.singleton APOSTROPHE] ∧
      L.Sorted (fun a b => a.data ≤ b.data) ∧ L.Nodup ∧
      (∀ s, s ∈ L ↔ ∃ c, c ∈ charSymbolsOf ts ∧ c ≠ '_' ∧ c ≠ APOSTROPHE ∧
        s = String.singleton c) := by
  refine ⟨sortedSet (((charSymbolsOf ts).filter
    (fun c => decide (c ≠ '_' ∧ c ≠ APOSTROPHE))).map String.singleton), rfl,
    sortedSet_sorted _, sortedSet_nodup _, ?_⟩
  intro s
  rw [mem_sortedSet]
  constructor
  · intro hs
    obtain ⟨c, hc, hcs⟩ := List.mem_map.mp hs
    obtain ⟨h1, h2⟩ := List.mem_filter.mp hc
    have h3 : c ≠ '_' ∧ c ≠ APOSTROPHE := of_decide_eq_true h2
    exact ⟨c, h1, h3.1, h3.2, hcs.symm⟩
  · rintro ⟨c, h1, h2, h3, h4⟩
    exact List.mem_map.mpr ⟨c, List.mem_filter.mpr ⟨h1, decide_eq_true ⟨h2, h3⟩⟩, h4.symm⟩

/-! ### Claim theorems -/

/-- C1: the spec demands that tokenizing any transcript with an indexer
loaded from the vocabulary built from a corpus containing it never
raises a lookup failure, in both plain and capital-divided modes.  The
code violates this: for a corpus whose only transcript is the
single-letter word `a`, `read_char` stores only the uppercased unit `A`
in the capital vocabulary (lines 201-202 special-case words of length
1), but `Char2idx.__call__` with `capital_divide=True` additionally
looks up the lowercase final character `a` (lines 80-81 have no such
special case), which is absent, so tokenization raises `KeyError`
(evaluates to `none`). -/
theorem C1_single_letter_corpus_lookup_fails :
    capVocabLines ["a"] = some ["A", String.singleton APOSTROPHE] ∧
    callCapital (char2idxInit ["A", String.singleton APOSTROPHE] []) '_' (spaceSub "a")
      = none := by
  constructor <;> decide

/-- C2: the claim states that capital-divided tokenization of a word of
length 1 such as `a` emits exactly one unit, the uppercased `A`.  The
code emits TWO units: with a vocabulary in which both `A` (index 0) and
`a` (index 1) resolve, `Char2idx.__call__` on the word `a` appends
`map_dict[word[0].upper()]` and then, since the body loop was empty and
`skip_flag` is false, also `map_dict[word[-1]]` — the lowercase `a`
again (`transcript_character.py` lines 64, 80-81). -/
theorem C2_single_letter_word_two_units :
    callCapital (char2idxInit ["A", "a"] []) '_' "a" = some [0, 1] := by
  decide

/-- C3 counterexample: the claim says a symbol is deleted exactly when
its collapse-table row carries `nan` in the TARGET column — the 39-phone
column when mapping to phone39.  The code tests only the 48-phone column
(`line[1]`, `transcript_phone.py` line 106): for the row `x y nan` the
39-phone target column is `nan`, yet mapping `[x]` to phone39 yields the
literal string `nan` instead of deleting the symbol. -/
theorem C3_counterexample :
    map_phone2phone ["x"] LabelType.phone39 [("x", "y", "nan")] = ["nan"] := by
  decide

/-- C3 amended: in `map_phone2phone` a symbol absent from the collapse
table is passed through unchanged, and a symbol is deleted from the
mapped sequence exactly when the 48-phone column (the SECOND field) of
its governing table row is the token `nan`, for both the phone48 and the
phone39 target granularity. -/
theorem C3_amended (lt : LabelType) (hlt : lt ≠ LabelType.phone61)
    (table : List (String × String × String)) (p : String) (hp : p ≠ "")
    (hfields : ∀ r ∈ table, r.2.1 ≠ "" ∧ r.2.2 ≠ "") :
    (lastRowFor table p = none → map_phone2phone [p] lt table = [p]) ∧
    (map_phone2phone [p] lt table = [] ↔
      ∃ r, lastRowFor table p = some r ∧ r.2.1 = "nan") := by
  rw [map_phone2phone_ne61 lt hlt]
  simp only [List.map_cons, List.map_nil]
  constructor
  · intro hnone
    have hd : phoneMapDict lt table p = none := by
      rw [phoneMapDict_eq_lastRow lt hlt, hnone]
      rfl
    rw [hd]
    simp only [Option.getD_none]
    rw [List.filter_cons, if_pos (decide_eq_true hp)]
    rfl
  · cases hrow : lastRowFor table p with
    | none =>
      have hd : phoneMapDict lt table p = none := by
        rw [phoneMapDict_eq_lastRow lt hlt, hrow]
        rfl
      rw [hd]
      simp only [Option.getD_none]
      rw [List.filter_cons, if_pos (decide_eq_true hp)]
      constructor
      · intro h0; cases h0
      · rintro ⟨r, hr, _⟩; cases hr
    | some r =>
      have hd : phoneMapDict lt table p = some (rowVal lt r) := by
        rw [phoneMapDict_eq_lastRow lt hlt, hrow]
        rfl
      rw [hd]
      simp only [Option.getD_some]
      obtain ⟨hrmem, _⟩ := lastRowFor_mem table p r hrow
      by_cases hnan : r.2.1 = "nan"
      · have hv : rowVal lt r = "" := by
          unfold rowVal
          rw [if_neg (not_not_intro hnan)]
        rw [hv, List.filter_cons, if_neg (by simp)]
        constructor
        · intro _; exact ⟨r, rfl, hnan⟩
        · intro _; rfl
      · have hv : rowVal lt r ≠ "" := by
          unfold rowVal
          rw [if_pos hnan]
          cases lt with
          | phone61 => exact absurd rfl hlt
          | phone48 => exact (hfields r hrmem).1
          | phone39 => exact (hfields r hrmem).2
        rw [List.filter_cons, if_pos (decide_eq_true hv)]
        constructor
        · intro h0; cases h0
        · rintro ⟨r2, hr2, hnan2⟩
          have hr3 : r.2.1 = "nan" := by rw [Option.some.inj hr2]; exact hnan2
          exact absurd hr3 hnan

/-- Witness for the amended C3: for the table rows `x y nan` and
`q nan nan`, the symbol `q` (48-column `nan`) is deleted under phone39
while the table characterization confirms it. -/
theorem C3_amended_witness :
    ((LabelType.phone39 ≠ LabelType.phone61) ∧ (("q" : String) ≠ "") ∧
      (∀ r ∈ ([("x", "y", "nan"), ("q", "nan", "nan")] :
          List (String × String × String)), r.2.1 ≠ "" ∧ r.2.2 ≠ "")) ∧
    ((lastRowFor [("x", "y", "nan"), ("q", "nan", "nan")] "q" = none →
        map_phone2phone ["q"] LabelType.phone39
          [("x", "y", "nan"), ("q", "nan", "nan")] = ["q"]) ∧
      (map_phone2phone ["q"] LabelType.phone39
          [("x", "y", "nan"), ("q", "nan", "nan")] = [] ↔
        ∃ r, lastRowFor [("x", "y", "nan"), ("q", "nan", "nan")] "q" = some r ∧
          r.2.1 = "nan")) :=
  ⟨⟨by decide, by decide, by decide⟩,
    C3_amended LabelType.phone39 (by decide) _ "q" (by decide) (by decide)⟩

/-- C4: after building `Char2idx` or `Phone2idx` from a vocabulary file
whose lines yield N retained symbols, `<` maps to N and `>` to N + 1,
and (for distinct retained symbols not clashing with the sentinels) the
retained symbols occupy consecutive indices 0..N-1 in file order. -/
theorem C4_reserved_indices (vocabLines removeList : List String)
    (hnd : (retainedSymbols vocabLines removeList).Nodup)
    (hlt : "<" ∉ retainedSymbols vocabLines removeList)
    (hgt : ">" ∉ retainedSymbols vocabLines removeList) :
    char2idxInit vocabLines removeList "<"
        = some (retainedSymbols vocabLines removeList).length ∧
    char2idxInit vocabLines removeList ">"
        = some ((retainedSymbols vocabLines removeList).length + 1) ∧
    phone2idxInit vocabLines removeList "<"
        = some (retainedSymbols vocabLines removeList).length ∧
    phone2idxInit vocabLines removeList ">"
        = some ((retainedSymbols vocabLines removeList).length + 1) ∧
    ∀ i, i < (retainedSymbols vocabLines removeList).length →
      char2idxInit vocabLines removeList
        ((retainedSymbols vocabLines removeList).getD i "") = some i := by
  have hN : (char2idxCore vocabLines removeList).2
      = (retainedSymbols vocabLines removeList).length := by
    rw [char2idxCore_eq, buildFrom_snd]
    omega
  have hs1 : char2idxInit vocabLines removeList "<"
      = some (retainedSymbols vocabLines removeList).length := by
    unfold char2idxInit
    simp only [dictInsert]
    rw [if_neg (by decide)]
    simp [hN]
  have hs2 : char2idxInit vocabLines removeList ">"
      = some ((retainedSymbols vocabLines removeList).length + 1) := by
    unfold char2idxInit
    simp only [dictInsert]
    simp [hN]
  refine ⟨hs1, hs2, hs1, hs2, ?_⟩
  intro i hi
  obtain ⟨j, hj, hjlt, hjd⟩ := char2idxInit_mem vocabLines removeList hnd hlt hgt
    ((retainedSymbols vocabLines removeList).get ⟨i, hi⟩)
    (List.get_mem _ _ hi)
  have hgd : (retainedSymbols vocabLines removeList).getD i ""
      = (retainedSymbols vocabLines removeList).get ⟨i, hi⟩ := by
    rw [List.getD_eq_get?, List.get?_eq_get hi, Option.getD_some]
  rw [hgd]
  have hmem : (retainedSymbols vocabLines removeList).get ⟨i, hi⟩
      ∈ retainedSymbols vocabLines removeList := List.get_mem _ _ hi
  have hne1 : (retainedSymbols vocabLines removeList).get ⟨i, hi⟩ ≠ ">" :=
    fun h => hgt (h ▸ hmem)
  have hne2 : (retainedSymbols vocabLines removeList).get ⟨i, hi⟩ ≠ "<" :=
    fun h => hlt (h ▸ hmem)
  have hbf := buildFrom_get _ hnd (fun _ => none) 0 i hi
  unfold char2idxInit
  simp only [dictInsert]
  rw [if_neg hne1, if_neg hne2, char2idxCore_eq]
  simpa using hbf

/-- Witness for C4 on the vocabulary `a, b, c` with `b` excluded:
two retained symbols, `<` at 2, `>` at 3, symbol 1 (`c`) at index 1. -/
theorem C4_witness :
    (retainedSymbols ["a", "b", "c"] ["b"]).Nodup ∧
    "<" ∉ retainedSymbols ["a", "b", "c"] ["b"] ∧
    ">" ∉ retainedSymbols ["a", "b", "c"] ["b"] ∧
    char2idxInit ["a", "b", "c"] ["b"] "<" = some 2 ∧
    char2idxInit ["a", "b", "c"] ["b"] ">" = some 3 ∧
    phone2idxInit ["a", "b", "c"] ["b"] "<" = some 2 ∧
    phone2idxInit ["a", "b", "c"] ["b"] ">" = some 3 ∧
    char2idxInit ["a", "b", "c"] ["b"] ((retainedSymbols ["a", "b", "c"] ["b"]).getD 1 "")
      = some 1 := by
  have h := C4_reserved_indices ["a", "b", "c"] ["b"] (by decide) (by decide) (by decide)
  exact ⟨by decide, by decide, by decide, h.1, h.2.1, h.2.2.1, h.2.2.2.1,
    h.2.2.2.2 1 (by decide)⟩

/-- C5: for a 61-phone sequence containing exactly one occurrence of `q`
whose collapse-table binding maps it to the empty string in both
granularities (i.e. its row is `q nan nan`), while every other element
survives the mapping, the phone48 and phone39 outputs of
`map_phone2phone` each have exactly one fewer element than the input,
and `q` is not among the phone48 / phone39 vocabulary symbols
accumulated by `read_phone` from a table that never names `q` as a
target symbol. -/
theorem C5_q_collapse (table : List (String × String × String)) (phoneList : List String)
    (hq48 : phoneMapDict LabelType.phone48 table "q" = some "")
    (hq39 : phoneMapDict LabelType.phone39 table "q" = some "")
    (hcount : phoneList.count "q" = 1)
    (ho48 : ∀ p ∈ phoneList, p ≠ "q" →
      (phoneMapDict LabelType.phone48 table p).getD p ≠ "")
    (ho39 : ∀ p ∈ phoneList, p ≠ "q" →
      (phoneMapDict LabelType.phone39 table p).getD p ≠ "")
    (h48q : ∀ r ∈ table, r.2.1 ≠ "q")
    (h39q : ∀ r ∈ table, r.2.1 ≠ "nan" → r.2.2 ≠ "q") :
    (map_phone2phone phoneList LabelType.phone48 table).length = phoneList.length - 1 ∧
    (map_phone2phone phoneList LabelType.phone39 table).length = phoneList.length - 1 ∧
    "q" ∉ phone48Symbols table ∧ "q" ∉ phone39Symbols table := by
  have hiff48 : ∀ p ∈ phoneList,
      ((phoneMapDict LabelType.phone48 table p).getD p = "" ↔ p = "q") := by
    intro p hp
    constructor
    · intro h0
      by_contra hne
      exact ho48 p hp hne h0
    · intro h0
      rw [h0, hq48]
      rfl
  have hiff39 : ∀ p ∈ phoneList,
      ((phoneMapDict LabelType.phone39 table p).getD p = "" ↔ p = "q") := by
    intro p hp
    constructor
    · intro h0
      by_contra hne
      exact ho39 p hp hne h0
    · intro h0
      rw [h0, hq39]
      rfl
  refine ⟨?_, ?_, not_mem_phone48Symbols table h48q, not_mem_phone39Symbols table h39q⟩
  · rw [map_phone2phone_ne61 LabelType.phone48 (by simp) phoneList table,
      filter_map_length _ phoneList hiff48, hcount]
  · rw [map_phone2phone_ne61 LabelType.phone39 (by simp) phoneList table,
      filter_map_length _ phoneList hiff39, hcount]

/-- Witness for C5 on the table `q nan nan; aa aa aa; ih ih ih` and the
sequence `aa q ih`: both collapsed sequences have length 2 and `q` is in
neither target vocabulary. -/
theorem C5_witness :
    (phoneMapDict LabelType.phone48
        [("q", "nan", "nan"), ("aa", "aa", "aa"), ("ih", "ih", "ih")] "q" = some "") ∧
    ((["aa", "q", "ih"] : List String).count "q" = 1) ∧
    (map_phone2phone ["aa", "q", "ih"] LabelType.phone48
        [("q", "nan", "nan"), ("aa", "aa", "aa"), ("ih", "ih", "ih")]).length = 2 ∧
    (map_phone2phone ["aa", "q", "ih"] LabelType.phone39
        [("q", "nan", "nan"), ("aa", "aa", "aa"), ("ih", "ih", "ih")]).length = 2 ∧
    "q" ∉ phone48Symbols [("q", "nan", "nan"), ("aa", "aa", "aa"), ("ih", "ih", "ih")] ∧
    "q" ∉ phone39Symbols [("q", "nan", "nan"), ("aa", "aa", "aa"), ("ih", "ih", "ih")] := by
  have h := C5_q_collapse [("q", "nan", "nan"), ("aa", "aa", "aa"), ("ih", "ih", "ih")]
    ["aa", "q", "ih"] (by decide) (by decide) (by decide) (by decide) (by decide)
    (by decide) (by decide)
  exact ⟨by decide, by decide, h.1, h.2.1, h.2.2.1, h.2.2.2⟩

/-- C6: capital-divided tokenization of the word `all` with a map
resolving `A` and the double letter `ll` emits exactly the two units
`A` then `ll`, consuming all three characters; the final character is
not emitted again because the double-letter pair ending at the word end
sets `skip_flag`. -/
theorem C6_double_letter_all (d : String → Option Nat) (iA iLL : Nat)
    (hA : d "A" = some iA) (hll : d "ll" = some iLL) :
    callCapital d '_' "all" = some [iA, iLL] := by
  have hsplit : splitChars '_' ("all" : String).data = [['a', 'l', 'l']] := by decide
  have e1 : d (String.singleton ('a'.toUpper)) = some iA := by
    rw [show String.singleton ('a'.toUpper) = "A" by decide]
    exact hA
  have e2 : d (String.mk ['l', 'l']) = some iLL := by
    rw [show String.mk ['l', 'l'] = "ll" by decide]
    exact hll
  unfold callCapital
  rw [hsplit]
  simp only [capWords, capWord, capScanBody, capScanAux, e1, e2, Option.map_some']
  rfl

/-- Witness for C6 with the vocabulary `A, ll`: indices 0 then 1. -/
theorem C6_witness :
    char2idxInit ["A", "ll"] [] "A" = some 0 ∧
    char2idxInit ["A", "ll"] [] "ll" = some 1 ∧
    callCapital (char2idxInit ["A", "ll"] []) '_' "all" = some [0, 1] :=
  ⟨by decide, by decide, C6_double_letter_all _ 0 1 (by decide) (by decide)⟩

/-- C7: for a transcript whose characters all occur in the (distinct,
sentinel-free) vocabulary, the plain-mode index sequence exists and
mapping each index back through the inverse of the `Char2idx` map (the
symbol stored at that index) reproduces the transcript character for
character. -/
theorem C7_roundtrip (vocabLines : List String) (t : String)
    (hnd : (retainedSymbols vocabLines []).Nodup)
    (hlt : "<" ∉ retainedSymbols vocabLines [])
    (hgt : ">" ∉ retainedSymbols vocabLines [])
    (hcov : ∀ c ∈ t.data, String.singleton c ∈ retainedSymbols vocabLines []) :
    ∃ idxs, callPlain (char2idxInit vocabLines []) t = some idxs ∧
      idxs.map (fun i => (retainedSymbols vocabLines []).getD i "") =
        t.data.map String.singleton := by
  unfold callPlain
  suffices h : ∀ cs : List Char,
      (∀ c ∈ cs, String.singleton c ∈ retainedSymbols vocabLines []) →
      ∃ idxs, lookupList (char2idxInit vocabLines []) (cs.map String.singleton)
          = some idxs ∧
        idxs.map (fun i => (retainedSymbols vocabLines []).getD i "")
          = cs.map String.singleton by
    exact h t.data hcov
  intro cs
  induction cs with
  | nil => intro _; exact ⟨[], rfl, rfl⟩
  | cons c rest ih =>
    intro hcv
    obtain ⟨idxs, hlk, hdec⟩ := ih (fun x hx => hcv x (List.mem_cons_of_mem _ hx))
    obtain ⟨i, hi, hilt, hig⟩ := char2idxInit_mem vocabLines [] hnd hlt hgt
      (String.singleton c) (hcv c (List.mem_cons_self _ _))
    refine ⟨i :: idxs, ?_, ?_⟩
    · simp only [List.map_cons, lookupList, hi, hlk, Option.map_some']
    · simp only [List.map_cons, hig, hdec]

/-- Witness for C7 on the vocabulary `a, b` and the transcript `ab`. -/
theorem C7_witness :
    (retainedSymbols ["a", "b"] []).Nodup ∧
    "<" ∉ retainedSymbols ["a", "b"] [] ∧
    ">" ∉ retainedSymbols ["a", "b"] [] ∧
    (∀ c ∈ ("ab" : String).data, String.singleton c ∈ retainedSymbols ["a", "b"] []) ∧
    ∃ idxs, callPlain (char2idxInit ["a", "b"] []) "ab" = some idxs ∧
      idxs.map (fun i => (retainedSymbols ["a", "b"] []).getD i "") =
        ("ab" : String).data.map String.singleton :=
  ⟨by decide, by decide, by decide, by decide,
    C7_roundtrip ["a", "b"] "ab" (by decide) (by decide) (by decide) (by decide)⟩

/-- C8: the vocabulary files are a deterministic function of the symbol
set encountered: permuting the corpus (or the collapse-table rows)
leaves every written file byte-identical, and the lines are the sorted
distinct symbols followed by the fixed trailing entries (space mark then
apostrophe for character mode, apostrophe only for capital-divided mode,
nothing for phone modes). -/
theorem C8_vocab_determinism (ts1 ts2 : List String)
    (table1 table2 : List (String × String × String))
    (hts : ts1.Perm ts2) (htab : table1.Perm table2) :
    vocabFileContent (charVocabLines ts1) = vocabFileContent (charVocabLines ts2) ∧
    (capVocabLines ts1).map vocabFileContent = (capVocabLines ts2).map vocabFileContent ∧
    vocabFileContent (phoneVocabLines (phone61Symbols table1)) =
      vocabFileContent (phoneVocabLines (phone61Symbols table2)) ∧
    vocabFileContent (phoneVocabLines (phone48Symbols table1)) =
      vocabFileContent (phoneVocabLines (phone48Symbols table2)) ∧
    vocabFileContent (phoneVocabLines (phone39Symbols table1)) =
      vocabFileContent (phoneVocabLines (phone39Symbols table2)) ∧
    (∃ L : List String,
      charVocabLines ts1 = L ++ ["_", String.singleton APOSTROPHE] ∧
      L.Sorted (fun a b => a.data ≤ b.data) ∧ L.Nodup ∧
      (∀ s, s ∈ L ↔ ∃ c, c ∈ charSymbolsOf ts1 ∧ c ≠ '_' ∧ c ≠ APOSTROPHE ∧
        s = String.singleton c)) ∧
    (∀ ls, capVocabLines ts1 = some ls →
      ∃ L : List String, ls = L ++ [String.singleton APOSTROPHE] ∧
        L.Sorted (fun a b => a.data ≤ b.data) ∧ L.Nodup) ∧
    (phoneVocabLines (phone48Symbols table1)).Sorted (fun a b => a.data ≤ b.data) ∧
    (phoneVocabLines (phone48Symbols table1)).Nodup := by
  refine ⟨?_, ?_, ?_, ?_, ?_, charVocabLines_shape ts1, ?_, sortedSet_sorted _,
    sortedSet_nodup _⟩
  · rw [charVocabLines_perm ts1 ts2 hts]
  · rw [capVocabLines_perm ts1 ts2 hts]
  · unfold phoneVocabLines
    have hperm : (phone61Symbols table1).Perm (phone61Symbols table2) := htab.map _
    rw [sortedSet_perm_eq _ _ hperm]
  · unfold phoneVocabLines
    have hperm : (phone48Symbols table1).Perm (phone48Symbols table2) := htab.filterMap _
    rw [sortedSet_perm_eq _ _ hperm]
  · unfold phoneVocabLines
    have hperm : (phone39Symbols table1).Perm (phone39Symbols table2) := htab.filterMap _
    rw [sortedSet_perm_eq _ _ hperm]
  · intro ls hls
    unfold capVocabLines at hls
    cases h1 : capSymbolsOf ts1 with
    | none =>
      rw [h1] at hls
      cases hls
    | some us =>
      rw [h1] at hls
      refine ⟨sortedSet (us.filter (fun u => decide (u ≠ String.singleton APOSTROPHE))),
        (Option.some.inj hls).symm, sortedSet_sorted _, sortedSet_nodup _⟩

/-- Witness for C8: swapping the two transcripts of a corpus (and the
two rows of a table) leaves the character vocabulary file unchanged. -/
theorem C8_witness :
    (["b", "a"] : List String).Perm ["a", "b"] ∧
    ([("aa", "aa", "aa"), ("q", "nan", "nan")] :
      List (String × String × String)).Perm
        [("q", "nan", "nan"), ("aa", "aa", "aa")] ∧
    vocabFileContent (charVocabLines ["b", "a"]) =
      vocabFileContent (charVocabLines ["a", "b"]) ∧
    vocabFileContent (phoneVocabLines (phone48Symbols
        [("aa", "aa", "aa"), ("q", "nan", "nan")])) =
      vocabFileContent (phoneVocabLines (phone48Symbols
        [("q", "nan", "nan"), ("aa", "aa", "aa")])) := by
  have h := C8_vocab_determinism ["b", "a"] ["a", "b"]
    [("aa", "aa", "aa"), ("q", "nan", "nan")] [("q", "nan", "nan"), ("aa", "aa", "aa")]
    (by decide) (by decide)
  exact ⟨by decide, by decide, h.1, h.2.2.2.1⟩

/-- C9: when the last line of a transcript file becomes empty after
punctuation stripping and dropping of the two frame fields, the
leading/trailing-space trim of `read_char` indexes `transcript[0]` of
the empty string, so the line-cleaning pipeline fails with an
out-of-range error (modelled as `none`) instead of producing a
transcript. -/
theorem C9_empty_transcript (line : String)
    (h : dropFirstTwoFields (removePunct (stripLower line)) = []) :
    cleanTranscript line = none := by
  unfold cleanTranscript
  rw [h]
  rfl

/-- Witness for C9: the line `0 100 -` whose payload is pure
punctuation. -/
theorem C9_witness :
    dropFirstTwoFields (removePunct (stripLower "0 100 -")) = [] ∧
    cleanTranscript "0 100 -" = none :=
  ⟨by decide, C9_empty_transcript _ (by decide)⟩

/-- C10: `Phone2idx.__call__` on the empty string raises a lookup error
(`none`) instead of returning an empty index sequence, because
`''.split(' ')` yields `['']` and the empty string is not a vocabulary
symbol; consequently an utterance whose 61-phone sequence collapses
entirely under `map_phone2phone` makes the `read_phone` tokenization of
the joined (empty) phone string fail. -/
theorem C10_empty_call (d : String → Option Nat) (hd : d "" = none)
    (phoneList : List String) (lt : LabelType)
    (table : List (String × String × String))
    (hall : map_phone2phone phoneList lt table = []) :
    phone2idxCall d "" = none ∧
    phone2idxCall d (String.intercalate " " (map_phone2phone phoneList lt table))
      = none := by
  have h0 : phone2idxCall d "" = none := by
    unfold phone2idxCall
    have hs : (splitChars ' ' ("" : String).data).map String.mk = [""] := by decide
    rw [hs]
    simp only [lookupList, hd]
  refine ⟨h0, ?_⟩
  rw [hall]
  exact h0

/-- Witness for C10 with the vocabulary `aa` and the sequence `q`
collapsing away entirely. -/
theorem C10_witness :
    phone2idxInit ["aa"] [] "" = none ∧
    map_phone2phone ["q"] LabelType.phone48 [("q", "nan", "nan")] = [] ∧
    phone2idxCall (phone2idxInit ["aa"] []) "" = none ∧
    phone2idxCall (phone2idxInit ["aa"] [])
      (String.intercalate " " (map_phone2phone ["q"] LabelType.phone48
        [("q", "nan", "nan")])) = none :=
  ⟨by decide, by decide,
    (C10_empty_call _ (by decide) ["q"] LabelType.phone48 [("q", "nan", "nan")]
      (by decide)).1,
    (C10_empty_call _ (by decide) ["q"] LabelType.phone48 [("q", "nan", "nan")]
      (by decide)).2⟩
